import Mathlib

/-!
Verification of the heuristic tabular normalization engine
(`reader.py` / `checker.py` of the data-structure-checker skill).

The Python source is shallowly embedded: grids are lists of rows of tagged
cells, columns are lists of optional strings, the pandas / stdlib helpers
that are external to the repository (numeric parsing, datetime parsing,
codec decoding) are passed in as function parameters, and every embedded
definition mirrors the control flow of the corresponding Python function.
-/

/-! ## Duplicate Name Resolver

Embedding of `MultiLevelReader._handle_duplicate_names` (reader.py 406-419);
`DataStructureChecker._handle_duplicate_columns` (checker.py 237-264) computes
the same names by the identical seen-count loop. -/

/-- Lookup in the association list that models the Python dict `seen`. -/
def getCount : List (String × Nat) → String → Option Nat
  | [], _ => none
  | (k, v) :: r, n => if k = n then some v else getCount r n

/-- Update (or insert) in the association list that models the dict `seen`. -/
def setCount : List (String × Nat) → String → Nat → List (String × Nat)
  | [], n, v => [(n, v)]
  | (k, w) :: r, n, v => if k = n then (k, v) :: r else (k, w) :: setCount r n v

/-- The suffixed name built by the f-string `name _ count` of the source. -/
def suffixed (n : String) (c : Nat) : String := n ++ "_" ++ Nat.repr c

/-- The loop body of `_handle_duplicate_names`: on a repeated name the stored
count is incremented and appended as a suffix, on a fresh name the count is
initialised to 0 and the name is kept unchanged. -/
def handleDupGo : List String → List (String × Nat) → List String
  | [], _ => []
  | n :: rest, seen =>
    match getCount seen n with
    | some c => suffixed n (c + 1) :: handleDupGo rest (setCount seen n (c + 1))
    | none => n :: handleDupGo rest (setCount seen n 0)

/-- `_handle_duplicate_names(names)`: run the loop with an empty `seen` dict. -/
def handleDuplicateNames (names : List String) : List String := handleDupGo names []

/-- Positional description of one output name: a name whose prior-occurrence
count is zero is kept, otherwise it receives the count as suffix. -/
def outName (n : String) (c : Nat) : String := if c = 0 then n else suffixed n c

/-- Specification-level recursion: each name is renamed according to the
number of occurrences of the same base name among the already processed
prefix `done`. -/
def dupSpecGo (done : List String) : List String → List String
  | [] => []
  | n :: r => outName n (done.count n) :: dupSpecGo (done ++ [n]) r

theorem getCount_setCount_self (s : List (String × Nat)) (n : String) (v : Nat) :
    getCount (setCount s n v) n = some v := by
  induction s with
  | nil => simp [setCount, getCount]
  | cons kv r ih =>
    obtain ⟨k, w⟩ := kv
    by_cases h : k = n <;> simp [setCount, getCount, h, ih]

theorem getCount_setCount_ne (s : List (String × Nat)) {m n : String} (v : Nat)
    (h : m ≠ n) : getCount (setCount s n v) m = getCount s m := by
  induction s with
  | nil =>
    simp only [setCount, getCount]
    rw [if_neg (fun he => h he.symm)]
  | cons kv r ih =>
    obtain ⟨k, w⟩ := kv
    by_cases hk : k = n
    · subst hk
      simp only [setCount, if_pos rfl, getCount]
      rw [if_neg (fun he => h he.symm), if_neg (fun he => h he.symm)]
    · simp only [setCount, if_neg hk, getCount]
      by_cases hkm : k = m
      · rw [if_pos hkm, if_pos hkm]
      · rw [if_neg hkm, if_neg hkm]
        exact ih

theorem handleDupGo_eq_spec :
    ∀ (todo done : List String) (seen : List (String × Nat)),
    (∀ n, getCount seen n =
      if done.count n = 0 then none else some (done.count n - 1)) →
    handleDupGo todo seen = dupSpecGo done todo := by
  intro todo
  induction todo with
  | nil => intro done seen _; rfl
  | cons n rest ih =>
    intro done seen hinv
    have hn := hinv n
    by_cases hc : done.count n = 0
    · rw [hc] at hn
      simp only [if_pos rfl] at hn
      simp only [handleDupGo, hn, dupSpecGo, hc, outName, if_pos]
      refine congrArg _ (ih (done ++ [n]) _ ?_)
      intro m
      by_cases hm : m = n
      · subst hm
        rw [getCount_setCount_self]
        simp [List.count_append, hc]
      · rw [getCount_setCount_ne _ _ hm]
        have : (done ++ [n]).count m = done.count m := by
          simp [List.count_append, List.count_singleton']
          intro he; exact absurd he.symm hm
        rw [this, hinv m]
    · obtain ⟨c, hcc⟩ := Nat.exists_eq_succ_of_ne_zero hc
      rw [hcc] at hn
      simp only [Nat.succ_ne_zero, if_neg, Nat.succ_sub_one] at hn
      simp only [handleDupGo, hn, dupSpecGo, hcc, outName, Nat.succ_ne_zero, if_neg]
      refine congrArg _ (ih (done ++ [n]) _ ?_)
      intro m
      by_cases hm : m = n
      · subst hm
        rw [getCount_setCount_self]
        simp [List.count_append, hcc]
      · rw [getCount_setCount_ne _ _ hm]
        have : (done ++ [n]).count m = done.count m := by
          simp [List.count_append, List.count_singleton']
          intro he; exact absurd he.symm hm
        rw [this, hinv m]

theorem handleDuplicateNames_eq_spec (names : List String) :
    handleDuplicateNames names = dupSpecGo [] names := by
  refine handleDupGo_eq_spec names [] [] ?_
  intro n; simp [getCount]

theorem dupSpecGo_length : ∀ (todo done : List String),
    (dupSpecGo done todo).length = todo.length := by
  intro todo
  induction todo with
  | nil => intro done; rfl
  | cons n r ih => intro done; simp [dupSpecGo, ih]

theorem dupSpecGo_get? : ∀ (todo done : List String) (i : Nat),
    (dupSpecGo done todo).get? i =
      (todo.get? i).map (fun n => outName n ((done ++ todo.take i).count n)) := by
  intro todo
  induction todo with
  | nil => intro done i; simp [dupSpecGo]
  | cons n r ih =>
    intro done i
    match i with
    | 0 => simp [dupSpecGo]
    | Nat.succ j =>
      simp only [dupSpecGo, List.get?_cons_succ, ih (done ++ [n]) j, List.take_succ_cons]
      simp [List.append_assoc]

theorem mem_dupSpecGo : ∀ (todo done : List String) (x : String),
    x ∈ dupSpecGo done todo →
    ∃ m c, m ∈ todo ∧ done.count m ≤ c ∧ x = outName m c := by
  intro todo
  induction todo with
  | nil => intro done x h; simp [dupSpecGo] at h
  | cons n r ih =>
    intro done x h
    rcases List.mem_cons.mp h with h0 | h1
    · exact ⟨n, done.count n, List.mem_cons_self n r, Nat.le_refl _, h0⟩
    · obtain ⟨m, c, hm, hle, hx⟩ := ih (done ++ [n]) x h1
      refine ⟨m, c, List.mem_cons_of_mem n hm, Nat.le_trans ?_ hle, hx⟩
      simp [List.count_append]

/-! Injectivity of the decimal rendering `Nat.repr`, needed to separate the
suffixed duplicate names. -/

/-- Decimal digit list of a natural number, most significant digit first. -/
def natDigits (n : Nat) : List Char :=
  if h : n < 10 then [Nat.digitChar n]
  else natDigits (n / 10) ++ [Nat.digitChar (n % 10)]
decreasing_by exact Nat.div_lt_self (by omega) (by omega)

theorem toDigitsCore_eq_natDigits :
    ∀ (fuel n : Nat) (ds : List Char), n < fuel →
    Nat.toDigitsCore 10 fuel n ds = natDigits n ++ ds := by
  intro fuel
  induction fuel with
  | zero => intro n ds h; omega
  | succ f ih =>
    intro n ds h
    rw [Nat.toDigitsCore]
    by_cases h10 : n / 10 = 0
    · have hn : n < 10 := by omega
      rw [if_pos h10, natDigits, dif_pos hn, Nat.mod_eq_of_lt hn]
      rfl
    · have h2 : 10 ≤ n := by
        by_contra hcon
        exact h10 (Nat.div_eq_of_lt (by omega))
      have hlt : n / 10 < f := by
        have h1 : n / 10 < n := Nat.div_lt_self (by omega) (by omega)
        omega
      have hnd : natDigits n = natDigits (n / 10) ++ [Nat.digitChar (n % 10)] := by
        rw [natDigits, dif_neg (show ¬ n < 10 by omega)]
      rw [if_neg h10, ih _ _ hlt, hnd, List.append_assoc]
      rfl

theorem natDigits_eq_toDigits (n : Nat) : Nat.toDigits 10 n = natDigits n := by
  rw [Nat.toDigits, toDigitsCore_eq_natDigits (n + 1) n [] (Nat.lt_succ_self n),
    List.append_nil]

/-- Decimal value of a digit character. -/
def digitVal (c : Char) : Nat := c.toNat - 48

theorem digitVal_digitChar {m : Nat} (h : m < 10) :
    digitVal (Nat.digitChar m) = m := by
  interval_cases m <;> decide

theorem decode_natDigits (n : Nat) : ∀ (a : Nat),
    List.foldl (fun x c => x * 10 + digitVal c) a (natDigits n) =
      a * 10 ^ (natDigits n).length + n := by
  induction n using Nat.strong_induction_on with
  | _ n ih =>
    intro a
    by_cases h : n < 10
    · rw [natDigits, dif_pos h]
      simp [List.foldl, digitVal_digitChar h]
    · rw [natDigits, dif_neg h]
      have hlt : n / 10 < n := Nat.div_lt_self (by omega) (by omega)
      rw [List.foldl_append, ih (n / 10) hlt a]
      have hmod : digitVal (Nat.digitChar (n % 10)) = n % 10 :=
        digitVal_digitChar (Nat.mod_lt n (by omega))
      simp only [List.foldl, hmod, List.length_append, List.length_singleton]
      have : (a * 10 ^ (natDigits (n / 10)).length + n / 10) * 10 + n % 10 =
          a * 10 ^ ((natDigits (n / 10)).length + 1) + (n / 10 * 10 + n % 10) := by
        ring
      rw [this, Nat.mul_comm (n / 10) 10, Nat.div_add_mod]

theorem natDigits_inj {a b : Nat} (h : natDigits a = natDigits b) : a = b := by
  have ha := decode_natDigits a 0
  have hb := decode_natDigits b 0
  rw [h] at ha
  rw [ha] at hb
  simpa using hb

theorem repr_nat_inj {a b : Nat} (h : Nat.repr a = Nat.repr b) : a = b := by
  apply natDigits_inj
  have : (natDigits a).asString = (natDigits b).asString := by
    rw [← natDigits_eq_toDigits, ← natDigits_eq_toDigits]
    exact h
  exact List.asString_inj.mp this

/-! Prefix reasoning used to separate output names. -/

/-- Boolean prefix test on character lists. -/
def startsWithL : List Char → List Char → Bool
  | [], _ => true
  | _ :: _, [] => false
  | p :: ps, c :: cs => p = c && startsWithL ps cs

theorem startsWithL_append (p t : List Char) : startsWithL p (p ++ t) = true := by
  induction p with
  | nil => rfl
  | cons c cs ih => simp [startsWithL, ih]

theorem startsWithL_of_eq_append {p l t : List Char} (h : l = p ++ t) :
    startsWithL p l = true := h ▸ startsWithL_append p t

/-- No proposed name extends another proposed name by an underscore: under
this condition the resolver is proved to return pairwise distinct names. -/
def NoSuffixCollision (names : List String) : Prop :=
  ∀ x ∈ names, ∀ y ∈ names, startsWithL ((y ++ "_").data) x.data = false

instance (names : List String) : Decidable (NoSuffixCollision names) := by
  unfold NoSuffixCollision; infer_instance

theorem string_eq_of_data {s t : String} (h : s.data = t.data) : s = t := by
  cases s; cases t; exact congrArg String.mk h

theorem take_of_append_eq {a b ra rb : List Char} {u : Char}
    (hlt : a.length < b.length)
    (h : (a ++ [u]) ++ ra = (b ++ [u]) ++ rb) :
    ∃ t, b = (a ++ [u]) ++ t := by
  have h1 : (a ++ [u]) <+: ((b ++ [u]) ++ rb) := ⟨ra, h⟩
  have h2 : b <+: ((b ++ [u]) ++ rb) := by
    rw [List.append_assoc]
    exact ⟨[u] ++ rb, rfl⟩
  obtain ⟨t, ht⟩ := List.prefix_of_prefix_length_le h1 h2 (by simp; omega)
  exact ⟨t, ht.symm⟩

theorem data_suffixed (n : String) (c : Nat) :
    (suffixed n c).data = (n.data ++ [Char.ofNat 95]) ++ (Nat.repr c).data := by
  unfold suffixed
  rw [String.data_append, String.data_append]

theorem data_us_append (y : String) : (y ++ "_").data = y.data ++ [Char.ofNat 95] := by
  rw [String.data_append]

theorem outName_inj {names : List String} (H : NoSuffixCollision names)
    {n m : String} (hn : n ∈ names) (hm : m ∈ names) {cn cm : Nat}
    (h : outName n cn = outName m cm) : n = m ∧ cn = cm := by
  by_cases hcn : cn = 0 <;> by_cases hcm : cm = 0
  · simp only [outName, if_pos hcn, if_pos hcm] at h
    exact ⟨h, hcn.trans hcm.symm⟩
  · exfalso
    simp only [outName, if_pos hcn, if_neg hcm] at h
    have hd : n.data = (m.data ++ [Char.ofNat 95]) ++ (Nat.repr cm).data := by
      rw [h, data_suffixed]
    have : startsWithL ((m ++ "_").data) n.data = true := by
      rw [data_us_append]
      exact startsWithL_of_eq_append hd
    rw [H n hn m hm] at this
    exact Bool.false_ne_true this
  · exfalso
    simp only [outName, if_pos hcm, if_neg hcn] at h
    have hd : m.data = (n.data ++ [Char.ofNat 95]) ++ (Nat.repr cn).data := by
      rw [← h, data_suffixed]
    have : startsWithL ((n ++ "_").data) m.data = true := by
      rw [data_us_append]
      exact startsWithL_of_eq_append hd
    rw [H m hm n hn] at this
    exact Bool.false_ne_true this
  · simp only [outName, if_neg hcn, if_neg hcm] at h
    have hd : (n.data ++ [Char.ofNat 95]) ++ (Nat.repr cn).data =
        (m.data ++ [Char.ofNat 95]) ++ (Nat.repr cm).data := by
      rw [← data_suffixed, ← data_suffixed, h]
    rcases Nat.lt_trichotomy n.data.length m.data.length with hlt | heq | hgt
    · exfalso
      obtain ⟨t, ht⟩ := take_of_append_eq hlt hd
      have : startsWithL ((n ++ "_").data) m.data = true := by
        rw [data_us_append]
        exact startsWithL_of_eq_append ht
      rw [H m hm n hn] at this
      exact Bool.false_ne_true this
    · have hd' : n.data ++ ([Char.ofNat 95] ++ (Nat.repr cn).data) =
          m.data ++ ([Char.ofNat 95] ++ (Nat.repr cm).data) := by
        rw [← List.append_assoc, ← List.append_assoc]
        exact hd
      obtain ⟨h1, h2⟩ := List.append_inj hd' heq
      have h2' : (Nat.repr cn).data = (Nat.repr cm).data := by simpa using h2
      exact ⟨string_eq_of_data h1, repr_nat_inj (string_eq_of_data h2')⟩
    · exfalso
      obtain ⟨t, ht⟩ := take_of_append_eq hgt hd.symm
      have : startsWithL ((m ++ "_").data) n.data = true := by
        rw [data_us_append]
        exact startsWithL_of_eq_append ht
      rw [H n hn m hm] at this
      exact Bool.false_ne_true this

theorem nodup_dupSpecGo {names : List String} (H : NoSuffixCollision names) :
    ∀ (todo done : List String), (∀ x ∈ todo, x ∈ names) →
    (dupSpecGo done todo).Nodup := by
  intro todo
  induction todo with
  | nil => intro done _; exact List.nodup_nil
  | cons n r ih =>
    intro done hsub
    rw [dupSpecGo, List.nodup_cons]
    constructor
    · intro hmem
      obtain ⟨m, c, hmr, hle, hx⟩ := mem_dupSpecGo r (done ++ [n]) _ hmem
      obtain ⟨hnm, hcc⟩ := outName_inj H (hsub n (List.mem_cons_self n r))
        (hsub m (List.mem_cons_of_mem n hmr)) hx
      subst hnm
      rw [← hcc] at hle
      simp [List.count_append] at hle
    · exact ih (done ++ [n]) (fun x hx => hsub x (List.mem_cons_of_mem n hx))

theorem handleDupGo_id : ∀ (l : List String) (seen : List (String × Nat)),
    l.Nodup → (∀ x ∈ l, getCount seen x = none) → handleDupGo l seen = l := by
  intro l
  induction l with
  | nil => intro seen _ _; rfl
  | cons n rest ih =>
    intro seen hnd hnone
    rw [List.nodup_cons] at hnd
    rw [handleDupGo, hnone n (List.mem_cons_self n rest)]
    refine congrArg _ (ih _ hnd.2 ?_)
    intro x hx
    have hxn : x ≠ n := fun he => hnd.1 (he ▸ hx)
    rw [getCount_setCount_ne _ _ hxn]
    exact hnone x (List.mem_cons_of_mem n hx)

/-- Claim C1 (amended): the resolver returns a same-length sequence, in the
same order, in which a name with no earlier occurrence is unchanged and the
k-th later occurrence of a base name receives the suffix made of an
underscore and the decimal count k; the returned names are pairwise unique
provided no proposed name extends another proposed name by an underscore. -/
theorem handleDuplicateNames_spec (names : List String) :
    (handleDuplicateNames names).length = names.length ∧
    (∀ (i : Nat) (n : String), names.get? i = some n →
      (handleDuplicateNames names).get? i =
        some (outName n ((names.take i).count n))) ∧
    (NoSuffixCollision names → (handleDuplicateNames names).Nodup) := by
  rw [handleDuplicateNames_eq_spec]
  refine ⟨dupSpecGo_length names [], ?_, ?_⟩
  · intro i n hi
    rw [dupSpecGo_get? names [] i, hi, List.nil_append]
    rfl
  · intro H
    exact nodup_dupSpecGo H names [] (fun x hx => hx)

/-- Witness for C1: on input [a, a, b] the second occurrence of a becomes
a_1 and the output is duplicate-free. -/
theorem handleDuplicateNames_spec_witness :
    ((["a", "a", "b"].get? 1 = some ("a")) ∧ NoSuffixCollision ["a", "a", "b"]) ∧
    ((handleDuplicateNames ["a", "a", "b"]).get? 1 =
      some (outName ("a") ((["a", "a", "b"].take 1).count ("a")))) ∧
    (handleDuplicateNames ["a", "a", "b"]).Nodup :=
  ⟨⟨by decide, by decide⟩,
    (handleDuplicateNames_spec ["a", "a", "b"]).2.1 1 ("a") (by decide),
    (handleDuplicateNames_spec ["a", "a", "b"]).2.2 (by decide)⟩

/-- Counterexample for C1 as frozen: on input [a, a_1, a] the resolver
returns [a, a_1, a_1], whose names are not pairwise unique. -/
theorem handleDuplicateNames_not_unique :
    handleDuplicateNames ["a", "a_1", "a"] = ["a", "a_1", "a_1"] ∧
    ¬ (handleDuplicateNames ["a", "a_1", "a"]).Nodup := by
  constructor
  · decide
  · decide

/-- Claim C8 (amended): input [a, a, a] maps to exactly [a, a_1, a_2], and
re-running the resolver on its own output is a no-op whenever that output is
duplicate-free (which the collision input [b, b_1, b] shows can fail). -/
theorem handleDuplicateNames_idem :
    handleDuplicateNames ["a", "a", "a"] = ["a", "a_1", "a_2"] ∧
    ∀ names : List String, (handleDuplicateNames names).Nodup →
      handleDuplicateNames (handleDuplicateNames names) =
        handleDuplicateNames names := by
  constructor
  · decide
  · intro names hnd
    exact handleDupGo_id _ [] hnd (fun x _ => rfl)

/-- Witness for C8: the duplicate-free output for [c, c, d] is a fixed point. -/
theorem handleDuplicateNames_idem_witness :
    (handleDuplicateNames ["c", "c", "d"]).Nodup ∧
    handleDuplicateNames (handleDuplicateNames ["c", "c", "d"]) =
      handleDuplicateNames ["c", "c", "d"] :=
  ⟨by decide, handleDuplicateNames_idem.2 ["c", "c", "d"] (by decide)⟩

/-- Counterexample for C8 as frozen: re-running the resolver on its own
output for [b, b_1, b] renames again, so resolution is not idempotent. -/
theorem handleDuplicateNames_not_idem :
    handleDuplicateNames (handleDuplicateNames ["b", "b_1", "b"]) ≠
      handleDuplicateNames ["b", "b_1", "b"] := by
  decide

/-! ## Identifier-Like Token Classifier

Embedding of `MultiLevelReader._is_id_like` (reader.py 298-334). The Python
standard-library helpers are modelled over ASCII character lists:
`str.strip` as `trimList`, `str.split` as `splitOnChar`, and the success
predicate of `int(s, 16)` as `pyHexOk`. -/

/-- Hexadecimal digit as accepted by Python int(s, 16). -/
def isHexDigitChar (c : Char) : Bool :=
  c.isDigit || ('a' ≤ c && c ≤ 'f') || ('A' ≤ c && c ≤ 'F')

/-- Python str.split on a single character separator: empty segments are
kept, and the empty string splits to one empty segment. -/
def splitOnChar (sep : Char) : List Char → List (List Char)
  | [] => [[]]
  | c :: r =>
    let rest := splitOnChar sep r
    if c = sep then [] :: rest
    else
      match rest with
      | h :: t => (c :: h) :: t
      | [] => [[c]]

/-- Python str.strip: drop whitespace from both ends. -/
def trimList (cs : List Char) : List Char :=
  ((cs.dropWhile Char.isWhitespace).reverse.dropWhile Char.isWhitespace).reverse

/-- Underscore-separated runs of hexadecimal digits, at least one digit and
no leading, trailing or doubled underscore: the digit part of the grammar
accepted by Python int(s, 16). -/
def hexRunsOk (cs : List Char) : Bool :=
  !cs.isEmpty && (splitOnChar (Char.ofNat 95) cs).all
    (fun p => !p.isEmpty && p.all isHexDigitChar)

/-- Success predicate of Python int(s, 16) on a stripped string: optional
sign, optional 0x or 0X base prefix (an underscore may directly follow the
prefix), then underscore-separated runs of hexadecimal digits. -/
def pyHexOk (cs : List Char) : Bool :=
  let cs1 := match cs with
    | c :: r => if c = '+' ∨ c = '-' then r else cs
    | [] => []
  match cs1 with
  | '0' :: x :: r =>
    if x = 'x' ∨ x = 'X' then
      match r with
      | '_' :: r2 => hexRunsOk r2
      | _ => hexRunsOk r
    else hexRunsOk cs1
  | _ => hexRunsOk cs1

/-- First arm of `_is_id_like`: stripped length at least 16 and the string
parses fully as a hexadecimal integer. -/
def idArmHex (vc : List Char) : Bool :=
  decide (16 ≤ vc.length) && pyHexOk vc

/-- Second arm of `_is_id_like`: contains a hyphen, splits into at least 3
segments, and every segment contains only alphanumeric characters (empty
segments are skipped by the source, which is the same condition). -/
def idArmUuid (vc : List Char) : Bool :=
  vc.contains '-' && decide (3 ≤ (splitOnChar '-' vc).length) &&
    (splitOnChar '-' vc).all (fun p => p.all Char.isAlphanum)

/-- Third arm of `_is_id_like`: stripped length at least 16, fully
alphanumeric, with at least one digit and at least one letter. -/
def idArmAlnum (vc : List Char) : Bool :=
  decide (16 ≤ vc.length) && vc.all Char.isAlphanum &&
    vc.any Char.isDigit && vc.any Char.isAlpha

/-- `MultiLevelReader._is_id_like(val)`: the length gate is tested on the
original string, the three arms on the stripped string. -/
def isIdLike (val : String) : Bool :=
  if val.data.length < 8 then false
  else if idArmHex (trimList val.data) then true
  else if idArmUuid (trimList val.data) then true
  else if idArmAlnum (trimList val.data) then true
  else false

/-- Claim C7 (amended): the classifier returns true exactly when the string
has length at least 8 and one of the three arms holds on the stripped
string; every string shorter than 8 characters is never identifier-like. -/
theorem isIdLike_spec (val : String) :
    (isIdLike val = true ↔
      8 ≤ val.data.length ∧
        (idArmHex (trimList val.data) = true ∨ idArmUuid (trimList val.data) = true ∨
          idArmAlnum (trimList val.data) = true)) ∧
    (val.data.length < 8 → isIdLike val = false) := by
  constructor
  · unfold isIdLike
    split_ifs with h0 h1 h2 h3 <;> simp_all
  · intro h
    unfold isIdLike
    rw [if_pos h]

/-- Witness for C7: a seven-character string is never identifier-like. -/
theorem isIdLike_spec_witness :
    (("a-b-c-d" : String).data.length < 8) ∧ isIdLike ("a-b-c-d") = false :=
  ⟨by decide, (isIdLike_spec ("a-b-c-d")).2 (by decide)⟩

/-- Counterexample for C7 as frozen: the five-character string a-b-c
satisfies the UUID-shaped arm of the claimed disjunction, yet the classifier
returns false because of the length-8 gate, so true-exactly-when fails. -/
theorem isIdLike_counterexample :
    isIdLike ("a-b-c") = false ∧ idArmUuid (trimList ("a-b-c" : String).data) = true ∧
      ("a-b-c" : String).data.length < 8 := by
  decide

/-! ## Header Extent Detector

Embedding of `MultiLevelReader._detect_header_rows` (reader.py 219-263) and
`MultiLevelReader._analyze_row` (reader.py 265-296). A raw grid cell is
missing, an actual numeric value, or a textual value, exactly the coarse
kinds inspected by the `isinstance` tests of the source. -/

inductive Cell where
  | null : Cell
  | num : Int → Cell
  | str : String → Cell
deriving DecidableEq

/-- Counters computed by `_analyze_row`. -/
structure RowAnalysis where
  nonNullCount : Nat
  stringCount : Nat
  numericCount : Nat
  idLikeCount : Nat
deriving DecidableEq

/-- `_analyze_row(row)`: drop nulls, then count values by kind. -/
def analyzeRow (row : List Cell) : RowAnalysis :=
  let nonNull := row.filter (fun c => c ≠ Cell.null)
  { nonNullCount := nonNull.length
    stringCount := (nonNull.filter (fun c => match c with
      | Cell.str _ => true
      | _ => false)).length
    numericCount := (nonNull.filter (fun c => match c with
      | Cell.num _ => true
      | _ => false)).length
    idLikeCount := (nonNull.filter (fun c => match c with
      | Cell.str s => isIdLike s
      | _ => false)).length }

/-- The header test of `_detect_header_rows`: no numeric and no
identifier-like cell, or sparse (fill ratio below one half, which for a
positive column count is exactly `2 * nonNull < totalCols`) with no numeric
cell. -/
def isHeaderRowB (row : List Cell) (totalCols : Nat) : Bool :=
  (decide ((analyzeRow row).numericCount = 0) &&
    decide ((analyzeRow row).idLikeCount = 0)) ||
  (decide (2 * (analyzeRow row).nonNullCount < totalCols) &&
    decide ((analyzeRow row).numericCount = 0))

/-- `_detect_header_rows(raw_df)`: an empty grid yields row 0; otherwise the
scan walks the first `min maxHeaderRows length` rows, stops at the first row
failing the header test, and falls back to row 0 when no row passed. -/
def detectHeaderRows (maxHeaderRows : Nat) (grid : List (List Cell))
    (totalCols : Nat) : List Nat :=
  if grid = [] ∨ totalCols = 0 then [0]
  else if ((grid.take (min maxHeaderRows grid.length)).takeWhile
      (fun r => isHeaderRowB r totalCols)).length = 0 then [0]
  else List.range ((grid.take (min maxHeaderRows grid.length)).takeWhile
      (fun r => isHeaderRowB r totalCols)).length

theorem takeWhile_get?_pass {α : Type} (p : α → Bool) :
    ∀ (l : List α) (i : Nat), i < (l.takeWhile p).length →
    ∃ x, l.get? i = some x ∧ p x = true := by
  intro l
  induction l with
  | nil => intro i h; simp at h
  | cons a r ih =>
    intro i h
    by_cases hp : p a
    · rw [List.takeWhile_cons_of_pos hp] at h
      match i with
      | 0 => exact ⟨a, rfl, hp⟩
      | Nat.succ j => exact ih j (by simpa using h)
    · rw [List.takeWhile_cons_of_neg hp] at h
      simp at h

theorem takeWhile_get?_stop {α : Type} (p : α → Bool) :
    ∀ (l : List α), (l.takeWhile p).length < l.length →
    ∃ x, l.get? (l.takeWhile p).length = some x ∧ p x = false := by
  intro l
  induction l with
  | nil => intro h; simp at h
  | cons a r ih =>
    intro h
    by_cases hp : p a
    · rw [List.takeWhile_cons_of_pos hp] at h ⊢
      obtain ⟨x, hx, hpx⟩ := ih (by simpa using h)
      exact ⟨x, by simpa using hx, hpx⟩
    · rw [List.takeWhile_cons_of_neg hp]
      exact ⟨a, rfl, by simpa using hp⟩

/-- Conclusion of claim C2 for a nonempty grid with a positive column count
and a positive scan budget: if row 0 fails the header test the result is
exactly the list holding row 0; if row 0 passes, every returned row index
passes the test and the first row after the returned block, when inside the
scan budget, fails it. -/
def DetectSpec (maxH : Nat) (grid : List (List Cell)) (w : Nat) : Prop :=
  (isHeaderRowB (grid.headD []) w = false → detectHeaderRows maxH grid w = [0]) ∧
  (isHeaderRowB (grid.headD []) w = true →
    (detectHeaderRows maxH grid w).length ≤ min maxH grid.length ∧
    (∀ i ∈ detectHeaderRows maxH grid w, isHeaderRowB (grid.getD i []) w = true) ∧
    ((detectHeaderRows maxH grid w).length < min maxH grid.length →
      isHeaderRowB (grid.getD (detectHeaderRows maxH grid w).length []) w = false))

/-- Claim C2: the detector always returns a non-empty contiguous prefix of
row indices starting at row 0; for a nonempty grid with columns and a
positive scan budget, a row counts as header exactly per the header test,
scanning stops at the first failing row, and if row 0 fails the result is
exactly the singleton row 0. -/
theorem detectHeaderRows_spec (maxH : Nat) (grid : List (List Cell)) (w : Nat) :
    (detectHeaderRows maxH grid w ≠ [] ∧
      detectHeaderRows maxH grid w =
        List.range (detectHeaderRows maxH grid w).length) ∧
    (grid ≠ [] → 0 < w → 0 < maxH → DetectSpec maxH grid w) := by
  have hshape : ∀ l : List Nat, l = [0] ∨ (∃ k, 0 < k ∧ l = List.range k) →
      l ≠ [] ∧ l = List.range l.length := by
    rintro l (rfl | ⟨k, hk, rfl⟩)
    · exact ⟨by decide, by decide⟩
    · refine ⟨?_, by rw [List.length_range]⟩
      intro hcon
      rw [List.range_eq_nil] at hcon
      omega
  constructor
  · apply hshape
    unfold detectHeaderRows
    by_cases h1 : grid = [] ∨ w = 0
    · rw [if_pos h1]
      exact Or.inl rfl
    · rw [if_neg h1]
      by_cases h2 : ((grid.take (min maxH grid.length)).takeWhile
          (fun r => isHeaderRowB r w)).length = 0
      · rw [if_pos h2]
        exact Or.inl rfl
      · rw [if_neg h2]
        exact Or.inr ⟨_, Nat.pos_of_ne_zero h2, rfl⟩
  · intro hg hw hm
    have hguard : ¬ (grid = [] ∨ w = 0) := by
      rintro (h | h)
      · exact hg h
      · omega
    have hmin : 0 < min maxH grid.length := by
      have : 0 < grid.length := List.length_pos.mpr hg
      omega
    obtain ⟨g0, rest, rfl⟩ := List.exists_cons_of_ne_nil hg
    have hpre : (g0 :: rest).take (min maxH (g0 :: rest).length) =
        g0 :: rest.take (min maxH (g0 :: rest).length - 1) := by
      obtain ⟨j, hj⟩ := Nat.exists_eq_succ_of_ne_zero (Nat.pos_iff_ne_zero.mp hmin)
      rw [hj, List.take_succ_cons]
      simp
    constructor
    · intro hfail
      unfold detectHeaderRows
      rw [if_neg hguard]
      have : (((g0 :: rest).take (min maxH (g0 :: rest).length)).takeWhile
          (fun r => isHeaderRowB r w)).length = 0 := by
        rw [hpre, List.takeWhile_cons_of_neg]
        · rfl
        · simp only [List.headD_cons] at hfail
          simp [hfail]
      rw [this, if_pos rfl]
    · intro hpass
      simp only [List.headD_cons] at hpass
      set pre := (g0 :: rest).take (min maxH (g0 :: rest).length) with hpredef
      have hprelen : pre.length = min maxH (g0 :: rest).length := by
        rw [hpredef, List.length_take]
        omega
      set k := (pre.takeWhile (fun r => isHeaderRowB r w)).length with hkdef
      have hkpos : 0 < k := by
        rw [hkdef, hpre, List.takeWhile_cons_of_pos (by simp [hpass])]
        simp
      have hres : detectHeaderRows maxH (g0 :: rest) w = List.range k := by
        unfold detectHeaderRows
        rw [if_neg hguard]
        simp only [← hpredef, ← hkdef]
        rw [if_neg (Nat.pos_iff_ne_zero.mp hkpos)]
      have hkle : k ≤ min maxH (g0 :: rest).length := by
        rw [hkdef, ← hprelen]
        exact (List.takeWhile_sublist _).length_le
      rw [hres]
      refine ⟨by rw [List.length_range]; exact hkle, ?_, ?_⟩
      · intro i hi
        rw [List.mem_range] at hi
        obtain ⟨x, hx, hpx⟩ := takeWhile_get?_pass (fun r => isHeaderRowB r w) pre i hi
        have hgx : (g0 :: rest).get? i = some x := by
          rw [hpredef] at hx
          rwa [List.get?_take (by omega : i < min maxH (g0 :: rest).length)] at hx
        rw [List.getD_eq_get?, hgx]
        exact hpx
      · intro hlt
        rw [List.length_range] at hlt
        obtain ⟨x, hx, hpx⟩ := takeWhile_get?_stop (fun r => isHeaderRowB r w) pre
          (by omega)
        have hgx : (g0 :: rest).get? k = some x := by
          rw [hpredef] at hx
          rwa [List.get?_take (by omega : k < min maxH (g0 :: rest).length)] at hx
        rw [List.length_range, List.getD_eq_get?, hgx]
        exact hpx

/-- Witness for C2: a one-column grid whose first row is textual and whose
second row is numeric. -/
theorem detectHeaderRows_spec_witness :
    (([[Cell.str ("h")], [Cell.num 1]] : List (List Cell)) ≠ [] ∧ (0 : Nat) < 1 ∧
      (0 : Nat) < 5) ∧
    DetectSpec 5 [[Cell.str ("h")], [Cell.num 1]] 1 :=
  ⟨⟨by decide, by decide, by decide⟩,
    (detectHeaderRows_spec 5 [[Cell.str ("h")], [Cell.num 1]] 1).2
      (by decide) (by decide) (by decide)⟩

/-! ## Header Flattener

Embedding of the name-building loop of `MultiLevelReader._flatten_columns`
(reader.py 344-392). A header cell is an optional string: `none` models a
null (blank, merged-away) cell, and a string starting with `Unnamed:` is the
synthetic pandas placeholder. -/

/-- A header cell is a usable label when it is present and not a synthetic
placeholder: the `pd.isna(name) or name.startswith(Unnamed:)` test. -/
def validHeaderCell : Option String → Bool
  | none => false
  | some s => !(startsWithL (("Unnamed:" : String).data) s.data)

/-- One forward-fill step at one level: a usable cell becomes the new
running value, otherwise the previous running value is kept. -/
def updCell (p c : Option String) : Option String :=
  if validHeaderCell c then c else p

/-- Per-column update of the `prev_names` array of `_flatten_columns`. -/
def stepPrev (prev col : List (Option String)) : List (Option String) :=
  List.zipWith updCell prev col

/-- Python str.strip on a model string. -/
def strTrim (s : String) : String := (trimList s.data).asString

/-- The adjacent-duplicate collapse loop over the parts list: a part is
appended only when it differs from the last appended part. -/
def collapseAux (p : String) : List String → List String
  | [] => []
  | b :: r => if b = p then collapseAux p r else b :: collapseAux b r

def collapseAdj : List String → List String
  | [] => []
  | a :: r => a :: collapseAux a r

/-- Join the parts with the configured separator. -/
def joinSep (sep : String) : List String → String
  | [] => ""
  | [a] => a
  | a :: b :: r => a ++ sep ++ joinSep sep (b :: r)

/-- Name of one column, built from the updated `prev_names` array (which
holds exactly the effective, forward-filled value of every level): stripped
parts of the present levels, adjacent duplicates collapsed, joined with the
separator, and a positional placeholder when no level yielded a part. -/
def colNameOf (sep : String) (idx : Nat) (np : List (Option String)) : String :=
  if (collapseAdj ((np.filterMap id).map strTrim)).isEmpty then
    "Column_" ++ Nat.repr idx
  else joinSep sep (collapseAdj ((np.filterMap id).map strTrim))

/-- The per-column loop of `_flatten_columns`, before duplicate-name
resolution; `idx` is the number of names already flattened. -/
def flattenGo (sep : String) : List (Option String) → Nat →
    List (List (Option String)) → List String
  | _, _, [] => []
  | prev, idx, col :: rest =>
    colNameOf sep idx (stepPrev prev col) ::
      flattenGo sep (stepPrev prev col) (idx + 1) rest

/-- Name building of `_flatten_columns`: every level starts with no
previous value. -/
def flattenRaw (sep : String) (nLevels : Nat)
    (cols : List (List (Option String))) : List String :=
  flattenGo sep (List.replicate nLevels none) 0 cols

/-- Full `_flatten_columns`: name building then duplicate resolution. -/
def flattenColumns (sep : String) (nLevels : Nat)
    (cols : List (List (Option String))) : List String :=
  handleDuplicateNames (flattenRaw sep nLevels cols)

/-- Specification reading of forward-fill, following the claim: the nearest
preceding usable value at one level, scanning the level cells of the
columns so far from left to right. -/
def nearestFill (cells : List (Option String)) : Option String :=
  cells.foldl updCell none

/-- Specification name of the column with index `idx`, following the claim:
per level top-to-bottom, substitute the nearest preceding non-blank value at
that level among the columns up to and including this one, omit the level
when no such value exists, strip, collapse immediately-adjacent duplicates,
join with the separator, or synthesize the positional placeholder. -/
def specColName (sep : String) (nLevels : Nat)
    (colsPre : List (List (Option String))) (idx : Nat) : String :=
  colNameOf sep idx ((List.range nLevels).map
    (fun i => nearestFill (colsPre.map (fun col => col.getD i none))))

/-- Specification recursion: the name of each column is computed afresh from
the prefix of columns up to it. -/
def flattenSpecGo (sep : String) (nLevels : Nat)
    (done : List (List (Option String))) :
    List (List (Option String)) → List String
  | [] => []
  | c :: r => specColName sep nLevels (done ++ [c]) done.length ::
      flattenSpecGo sep nLevels (done ++ [c]) r

def flattenSpec (sep : String) (nLevels : Nat)
    (cols : List (List (Option String))) : List String :=
  flattenSpecGo sep nLevels [] cols

theorem stepPrev_getD : ∀ (prev col : List (Option String)) (i : Nat),
    i < prev.length → i < col.length →
    (stepPrev prev col).getD i none =
      updCell (prev.getD i none) (col.getD i none) := by
  intro prev
  induction prev with
  | nil => intro col i h1 _; simp at h1
  | cons p ps ih =>
    intro col i h1 h2
    cases col with
    | nil => simp at h2
    | cons c cs =>
      match i with
      | 0 => rfl
      | Nat.succ j =>
        simp only [stepPrev, List.zipWith_cons_cons, List.getD_cons_succ]
        exact ih cs j (by simpa using h1) (by simpa using h2)

theorem eq_range_map_of_getD {α : Type} (d : α) :
    ∀ (l : List α) (f : Nat → α),
    (∀ i, i < l.length → l.getD i d = f i) → l = (List.range l.length).map f := by
  intro l
  induction l with
  | nil => intro f _; rfl
  | cons a r ih =>
    intro f h
    have h0 : a = f 0 := by simpa using h 0 (by simp)
    have hr : r = (List.range r.length).map (fun i => f (i + 1)) := by
      refine ih _ ?_
      intro i hi
      simpa using h (i + 1) (by simpa using Nat.succ_lt_succ hi)
    rw [List.length_cons, List.range_succ_eq_map, List.map_cons, ← h0]
    refine congrArg _ ?_
    rw [List.map_map]
    exact hr

theorem getD_replicate_none {α : Type} : ∀ (n i : Nat),
    (List.replicate n (none : Option α)).getD i none = none := by
  intro n
  induction n with
  | zero => intro i; cases i <;> rfl
  | succ m ih =>
    intro i
    cases i with
    | zero => rfl
    | succ j => simpa using ih j

theorem flattenGo_eq_spec (sep : String) (n : Nat) :
    ∀ (todo done : List (List (Option String))) (prev : List (Option String)),
    (∀ c ∈ todo, c.length = n) →
    prev.length = n →
    (∀ i, i < n → prev.getD i none =
      nearestFill (done.map (fun col => col.getD i none))) →
    flattenGo sep prev done.length todo = flattenSpecGo sep n done todo := by
  intro todo
  induction todo with
  | nil => intro done prev _ _ _; rfl
  | cons c r ih =>
    intro done prev hrect hplen hinv
    have hclen : c.length = n := hrect c (List.mem_cons_self c r)
    have hnplen : (stepPrev prev c).length = n := by
      rw [stepPrev, List.length_zipWith, hplen, hclen, Nat.min_self]
    have hnpinv : ∀ i, i < n → (stepPrev prev c).getD i none =
        nearestFill ((done ++ [c]).map (fun col => col.getD i none)) := by
      intro i hi
      rw [stepPrev_getD prev c i (by omega) (by omega), hinv i hi]
      simp [nearestFill, List.foldl_append]
    have hmapeq : stepPrev prev c = (List.range n).map
        (fun i => nearestFill ((done ++ [c]).map (fun col => col.getD i none))) := by
      have := eq_range_map_of_getD none (stepPrev prev c)
        (fun i => nearestFill ((done ++ [c]).map (fun col => col.getD i none)))
        (fun i hi => hnpinv i (by omega))
      rwa [hnplen] at this
    simp only [flattenGo, flattenSpecGo]
    rw [show specColName sep n (done ++ [c]) done.length =
        colNameOf sep done.length (stepPrev prev c) by
      unfold specColName
      rw [← hmapeq]]
    refine congrArg _ ?_
    have hlen1 : done.length + 1 = (done ++ [c]).length := by simp
    rw [hlen1]
    exact ih (done ++ [c]) (stepPrev prev c)
      (fun x hx => hrect x (List.mem_cons_of_mem c hx)) hnplen hnpinv

/-- Claim C4: the name-building loop of the flattener equals its
specification (forward-fill per level from the nearest preceding usable
value, omit absent levels, strip, collapse immediately-adjacent duplicates,
join, positional placeholder when empty); and the two-row header block
Group over null joined with Group over Code flattens to Group and
Group_Code, with no Group_Group duplication. -/
theorem flattenRaw_spec :
    (∀ (sep : String) (n : Nat) (cols : List (List (Option String))),
      (∀ c ∈ cols, c.length = n) → flattenRaw sep n cols = flattenSpec sep n cols) ∧
    flattenRaw ("_") 2 [[some ("Group"), some ("Group")], [none, some ("Code")]] =
      ["Group", "Group_Code"] := by
  constructor
  · intro sep n cols hrect
    unfold flattenRaw flattenSpec
    have h0 : (0 : Nat) = ([] : List (List (Option String))).length := rfl
    rw [h0]
    refine flattenGo_eq_spec sep n cols [] (List.replicate n none) hrect
      (List.length_replicate n none) ?_
    intro i hi
    rw [getD_replicate_none]
    rfl
  · decide

/-- Witness for C4: the Group and Code header block is rectangular with two
levels, and the flattener agrees with the specification on it. -/
theorem flattenRaw_spec_witness :
    (∀ c ∈ [[some ("Group"), some ("Group")], [none, some ("Code")]],
      List.length c = 2) ∧
    flattenRaw ("_") 2 [[some ("Group"), some ("Group")], [none, some ("Code")]] =
      flattenSpec ("_") 2 [[some ("Group"), some ("Group")], [none, some ("Code")]] :=
  ⟨by decide, flattenRaw_spec.1 ("_") 2
    [[some ("Group"), some ("Group")], [none, some ("Code")]] (by decide)⟩

/-! ## Grid Trimmer

Embedding of `DataStructureChecker._trim_empty` (checker.py 213-235) over
the header-stripped data body: a body is a list of rows of optional values
(the column names live outside the body and are untouched). -/

/-- A row is entirely null. -/
def rowAllNull {α : Type} (r : List (Option α)) : Bool :=
  r.all (fun c => c.isNone)

/-- `df.dropna(how=all)`: keep the rows that hold at least one value. -/
def trimRows {α : Type} (g : List (List (Option α))) : List (List (Option α)) :=
  g.filter (fun r => !(rowAllNull r))

/-- Column `j` is entirely null. -/
def colAllNull {α : Type} (g : List (List (Option α))) (j : Nat) : Bool :=
  g.all (fun r => (r.getD j none).isNone)

/-- The column indices that survive `df.dropna(axis=1, how=all)`. -/
def keptCols {α : Type} (g : List (List (Option α))) (w : Nat) : List Nat :=
  (List.range w).filter (fun j => !(colAllNull g j))

/-- Restrict a row to the kept column indices, in order. -/
def selectCols {α : Type} (keep : List Nat) (r : List (Option α)) :
    List (Option α) :=
  keep.map (fun j => r.getD j none)

/-- `df.dropna(axis=1, how=all)` on a body of width `w`. -/
def trimCols {α : Type} (g : List (List (Option α))) (w : Nat) :
    List (List (Option α)) :=
  g.map (selectCols (keptCols g w))

/-- `_trim_empty`: remove entirely-null rows first, then entirely-null
columns of the result. -/
def trimEmpty {α : Type} (g : List (List (Option α))) (w : Nat) :
    List (List (Option α)) :=
  trimCols (trimRows g) w

/-- Conclusion of claim C5: rows are trimmed first and columns second; after
trimming no remaining row and no remaining column is entirely null; row
trimming only drops rows and keeps the survivors in order; and every
not-entirely-null row of the body survives into the result. The trimmer
takes only the header-stripped body, so header rows are untouched by
construction. -/
def TrimSpec {α : Type} (g : List (List (Option α))) (w : Nat) : Prop :=
  trimEmpty g w = trimCols (trimRows g) w ∧
  (∀ r ∈ trimEmpty g w, rowAllNull r = false) ∧
  (∀ j, j < (keptCols (trimRows g) w).length →
    colAllNull (trimEmpty g w) j = false) ∧
  (trimRows g).Sublist g ∧
  (∀ r ∈ g, rowAllNull r = false →
    selectCols (keptCols (trimRows g) w) r ∈ trimEmpty g w)

theorem rowAllNull_eq_false {α : Type} (r : List (Option α)) :
    rowAllNull r = false ↔ ∃ x ∈ r, x.isNone = false := by
  unfold rowAllNull
  rw [Bool.eq_false_iff, ne_eq, List.all_eq_true]
  push_neg
  simp only [Bool.not_eq_true]

theorem colAllNull_eq_false {α : Type} (g : List (List (Option α))) (j : Nat) :
    colAllNull g j = false ↔ ∃ r ∈ g, ((r.getD j none).isNone : Bool) = false := by
  unfold colAllNull
  rw [Bool.eq_false_iff, ne_eq, List.all_eq_true]
  push_neg
  simp only [Bool.not_eq_true]

/-- Claim C5: after trimming rows first and columns second, no remaining row
and no remaining column of the body is entirely null, only entirely-null
rows are removed, and survivors keep their order. -/
theorem trimEmpty_spec {α : Type} (g : List (List (Option α))) (w : Nat)
    (hrect : ∀ r ∈ g, r.length = w) : TrimSpec g w := by
  refine ⟨rfl, ?_, ?_, List.filter_sublist g, ?_⟩
  · intro r' hr'
    unfold trimEmpty trimCols at hr'
    obtain ⟨r, hrmem, rfl⟩ := List.mem_map.mp hr'
    have hrg := List.mem_filter.mp hrmem
    have hrnull : rowAllNull r = false := by
      have h2 := hrg.2
      rw [Bool.not_eq_true'] at h2
      exact h2
    obtain ⟨x, hxr, hx⟩ := (rowAllNull_eq_false r).mp hrnull
    obtain ⟨j, hj⟩ := List.mem_iff_get?.mp hxr
    obtain ⟨hjlen, _⟩ := List.get?_eq_some.mp hj
    have hjw : j < w := by
      have := hrect r hrg.1
      omega
    have hgetD : r.getD j none = x := by
      rw [List.getD_eq_get?, hj]
      rfl
    have hjkept : j ∈ keptCols (trimRows g) w := by
      unfold keptCols
      rw [List.mem_filter]
      refine ⟨List.mem_range.mpr hjw, ?_⟩
      have hcol : colAllNull (trimRows g) j = false := by
        rw [colAllNull_eq_false]
        exact ⟨r, hrmem, by rw [hgetD]; exact hx⟩
      rw [hcol]
      rfl
    rw [rowAllNull_eq_false]
    have hmem : r.getD j none ∈ selectCols (keptCols (trimRows g) w) r :=
      List.mem_map_of_mem _ hjkept
    rw [hgetD] at hmem
    exact ⟨x, hmem, hx⟩
  · intro j hj
    obtain ⟨cj, hcj⟩ : ∃ cj, (keptCols (trimRows g) w).get? j = some cj := by
      cases hx : (keptCols (trimRows g) w).get? j with
      | none =>
        rw [List.get?_eq_none] at hx
        omega
      | some cj => exact ⟨cj, rfl⟩
    have hcjmem : cj ∈ keptCols (trimRows g) w := List.get?_mem hcj
    have hcjspec := List.mem_filter.mp (by
      unfold keptCols at hcjmem
      exact hcjmem)
    have hcol : colAllNull (trimRows g) cj = false := by
      have h2 := hcjspec.2
      rw [Bool.not_eq_true'] at h2
      exact h2
    obtain ⟨r, hrmem, hval⟩ := (colAllNull_eq_false _ _).mp hcol
    rw [colAllNull_eq_false]
    refine ⟨selectCols (keptCols (trimRows g) w) r,
      List.mem_map_of_mem _ hrmem, ?_⟩
    have heq : (selectCols (keptCols (trimRows g) w) r).getD j none =
        r.getD cj none := by
      unfold selectCols
      rw [List.getD_eq_get?, List.get?_map, hcj]
      rfl
    rw [heq]
    exact hval
  · intro r hr hnull
    have hmem : r ∈ trimRows g := by
      unfold trimRows
      rw [List.mem_filter]
      exact ⟨hr, by rw [hnull]; rfl⟩
    exact List.mem_map_of_mem _ hmem

/-- Witness for C5: a rectangular 2 by 2 body with one entirely-null row and
one entirely-null column. -/
theorem trimEmpty_spec_witness :
    (∀ r ∈ ([[some 1, none], [none, none]] : List (List (Option Nat))),
      List.length r = 2) ∧
    TrimSpec ([[some 1, none], [none, none]] : List (List (Option Nat))) 2 :=
  ⟨by decide, trimEmpty_spec [[some 1, none], [none, none]] 2 (by decide)⟩

/-! ## Encoding Resolver

Embedding of `ENCODINGS_TO_TRY` (checker.py 56-70) and
`DataStructureChecker._detect_encoding` (checker.py 193-211). The external
codecs are abstracted by a decode-success oracle: `decodeOk e sample` states
that decoding the leading sample under the encoding labelled `e` raises no
decoding error. The returned flag records whether the
`encoding_detection_failed` issue was appended. -/

def ENCODINGS_TO_TRY : List String :=
  ["utf-8", "utf-8-sig", "cp949", "euc-kr", "utf-16", "utf-16-le",
   "utf-16-be", "gbk", "gb2312", "big5", "shift_jis", "euc-jp", "iso-8859-1"]

/-- `_detect_encoding`: try every candidate in order on the leading 8 KiB
sample, return the first that decodes; if none does, fall back to utf-8 and
record the detection failure. -/
def detectEncoding (decodeOk : String → List Nat → Bool) (bytes : List Nat) :
    String × Bool :=
  match ENCODINGS_TO_TRY.find? (fun e => decodeOk e (bytes.take 8192)) with
  | some e => (e, false)
  | none => ("utf-8", true)

theorem find?_split {α : Type} (p : α → Bool) :
    ∀ (l : List α) (a : α), l.find? p = some a →
    p a = true ∧ ∃ l1 l2, l = l1 ++ a :: l2 ∧ ∀ x ∈ l1, p x = false := by
  intro l
  induction l with
  | nil => intro a h; simp [List.find?] at h
  | cons b r ih =>
    intro a h
    by_cases hb : p b = true
    · rw [List.find?_cons_of_pos _ hb] at h
      obtain rfl : b = a := by injection h
      exact ⟨hb, [], r, rfl, by simp⟩
    · rw [List.find?_cons_of_neg _ (by simpa using hb)] at h
      obtain ⟨hpa, l1, l2, heq, hall⟩ := ih a h
      refine ⟨hpa, b :: l1, l2, by rw [heq]; rfl, ?_⟩
      intro x hx
      rcases List.mem_cons.mp hx with rfl | hx1
      · simpa using hb
      · exact hall x hx1

theorem find?_isSome_of_mem {α : Type} (p : α → Bool) :
    ∀ (l : List α) (a : α), a ∈ l → p a = true → (l.find? p).isSome = true := by
  intro l
  induction l with
  | nil => intro a h; simp at h
  | cons b r ih =>
    intro a ha hp
    by_cases hb : p b = true
    · rw [List.find?_cons_of_pos _ hb]
      rfl
    · rw [List.find?_cons_of_neg _ (by simpa using hb)]
      rcases List.mem_cons.mp ha with rfl | ha1
      · exact absurd hp hb
      · exact ih a ha1 hp

/-- Claim C6: the resolver returns the first candidate of the fixed ordered
list under which the leading 8 KiB sample decodes; in particular a sample
that fails under utf-8 and utf-8-sig but decodes under cp949 resolves to
cp949 with no detection-failure issue. -/
theorem detectEncoding_spec (decodeOk : String → List Nat → Bool)
    (bytes : List Nat)
    (h1 : decodeOk ("utf-8") (bytes.take 8192) = false)
    (h2 : decodeOk ("utf-8-sig") (bytes.take 8192) = false)
    (h3 : decodeOk ("cp949") (bytes.take 8192) = true) :
    detectEncoding decodeOk bytes = (("cp949"), false) ∧
    ∀ (dOk : String → List Nat → Bool) (bs : List Nat) (e : String),
      detectEncoding dOk bs = (e, false) →
      e ∈ ENCODINGS_TO_TRY ∧ dOk e (bs.take 8192) = true ∧
      ∃ l1 l2, ENCODINGS_TO_TRY = l1 ++ e :: l2 ∧
        ∀ x ∈ l1, dOk x (bs.take 8192) = false := by
  constructor
  · unfold detectEncoding ENCODINGS_TO_TRY
    rw [List.find?_cons_of_neg _ (by simp [h1]),
      List.find?_cons_of_neg _ (by simp [h2]),
      List.find?_cons_of_pos _ (by simp [h3])]
  · intro dOk bs e hdef
    unfold detectEncoding at hdef
    cases hfind : ENCODINGS_TO_TRY.find? (fun c => dOk c (bs.take 8192)) with
    | none =>
      rw [hfind] at hdef
      exact absurd (congrArg Prod.snd hdef) (by simp)
    | some a =>
      rw [hfind] at hdef
      obtain rfl : a = e := congrArg Prod.fst hdef
      obtain ⟨hp, l1, l2, heq, hall⟩ := find?_split _ ENCODINGS_TO_TRY _ hfind
      exact ⟨heq ▸ List.mem_append_right l1 (List.mem_cons_self _ l2), hp,
        l1, l2, heq, hall⟩

/-- Witness for C6: an oracle under which only cp949 decodes. -/
theorem detectEncoding_spec_witness :
    ((fun e (_ : List Nat) => decide (e = ("cp949"))) ("utf-8")
        (([] : List Nat).take 8192) = false ∧
      (fun e (_ : List Nat) => decide (e = ("cp949"))) ("utf-8-sig")
        (([] : List Nat).take 8192) = false ∧
      (fun e (_ : List Nat) => decide (e = ("cp949"))) ("cp949")
        (([] : List Nat).take 8192) = true) ∧
    detectEncoding (fun e (_ : List Nat) => decide (e = ("cp949"))) [] =
      (("cp949"), false) :=
  ⟨⟨by decide, by decide, by decide⟩,
    (detectEncoding_spec (fun e (_ : List Nat) => decide (e = ("cp949"))) []
      (by decide) (by decide) (by decide)).1⟩

/-- Claim C10: whenever the Latin-1 candidate decodes the sample (which the
Latin-1 codec does on every byte sequence), the resolver returns a member of
the candidate list by first success and never records the
encoding-detection-failed issue, so the fallback branch is unreachable. -/
theorem detectEncoding_no_fallback (decodeOk : String → List Nat → Bool)
    (bytes : List Nat)
    (hlatin : decodeOk ("iso-8859-1") (bytes.take 8192) = true) :
    (detectEncoding decodeOk bytes).2 = false ∧
    (detectEncoding decodeOk bytes).1 ∈ ENCODINGS_TO_TRY := by
  have hmem : ("iso-8859-1" : String) ∈ ENCODINGS_TO_TRY := by decide
  have hsome := find?_isSome_of_mem (fun e => decodeOk e (bytes.take 8192))
    ENCODINGS_TO_TRY ("iso-8859-1") hmem hlatin
  unfold detectEncoding
  cases hfind : ENCODINGS_TO_TRY.find? (fun e => decodeOk e (bytes.take 8192)) with
  | none =>
    rw [hfind] at hsome
    simp at hsome
  | some a =>
    exact ⟨rfl, List.mem_of_find?_eq_some hfind⟩

/-- Witness for C10: the always-succeeding oracle. -/
theorem detectEncoding_no_fallback_witness :
    ((fun (_ : String) (_ : List Nat) => true) ("iso-8859-1")
        (([] : List Nat).take 8192) = true) ∧
    (detectEncoding (fun _ _ => true) []).2 = false ∧
    (detectEncoding (fun _ _ => true) []).1 ∈ ENCODINGS_TO_TRY :=
  ⟨rfl, detectEncoding_no_fallback (fun _ _ => true) [] rfl⟩

/-! ## Type Inference Engine

Embedding of the object-column branch of `DataStructureChecker._infer_types`
(checker.py 266-308) and of `DataStructureChecker._looks_like_date`
(checker.py 310-330). A textual column is a list of optional strings. The
external parsers are parameters: `parseNum` models `pd.to_numeric` on one
value (failure coerces to missing), `parseDate` models `pd.to_datetime` on
one value. Python compares `non_null_numeric / non_null_original > 0.8` in
floating point; the comparison is modelled by the exact rational test
`8 * nonNull < 10 * parsed`, which agrees with it for every realistic
column size. -/

/-- Number of originally non-missing values of the column. -/
def nonNullCountCol (col : List (Option String)) : Nat :=
  (col.filterMap id).length

/-- Number of values that survive the numeric coercion. -/
def parsedCountNum (parseNum : String → Option Int)
    (col : List (Option String)) : Nat :=
  (col.filterMap (fun o => o.bind parseNum)).length

/-- The dash-or-slash character class of the date regexes. -/
def dashSlash (c : Char) : Bool := c == '-' || c == '/'

/-- Deterministic matcher for the regex fragment `\d{1,2}` followed by a
separator: one or two digits then a separator character (two digits force
the separator next, since a digit can never match the separator class). -/
def d12sep (sepOk : Char → Bool) : List Char → Option (List Char)
  | a :: b :: rest =>
    if !a.isDigit then none
    else if b.isDigit then
      match rest with
      | c :: r2 => if sepOk c then some r2 else none
      | [] => none
    else if sepOk b then some rest else none
  | _ => none

/-- Matcher for the regex fragment `\d{4}`: exactly four digits. -/
def d4run : List Char → Option (List Char)
  | a :: b :: c :: d :: r =>
    if a.isDigit && b.isDigit && c.isDigit && d.isDigit then some r else none
  | _ => none

/-- A trailing `\d{1,2}` under `re.match` only needs one leading digit. -/
def leadDigit : List Char → Bool
  | a :: _ => a.isDigit
  | [] => false

/-- Prefix match of the year-first dash-or-slash date pattern. -/
def patYmd (cs : List Char) : Bool :=
  match d4run cs with
  | some (c :: r) =>
    dashSlash c && (match d12sep dashSlash r with
      | some r2 => leadDigit r2
      | none => false)
  | _ => false

/-- Prefix match of the day-first dash-or-slash date pattern. -/
def patDmy (cs : List Char) : Bool :=
  match d12sep dashSlash cs with
  | some r =>
    match d12sep dashSlash r with
    | some r2 => (d4run r2).isSome
    | none => false
  | none => false

/-- Prefix match of the dotted year-first date pattern. -/
def patYdotMd (cs : List Char) : Bool :=
  match d4run cs with
  | some (c :: r) =>
    (c == '.') && (match d12sep (fun x => x == '.') r with
      | some r2 => leadDigit r2
      | none => false)
  | _ => false

/-- One sampled value matches one of the three date-shaped patterns, after
stripping, anchored at the start as `re.match` does. -/
def dateShaped (s : String) : Bool :=
  patYmd (trimList s.data) || patDmy (trimList s.data) ||
    patYdotMd (trimList s.data)

/-- `_looks_like_date(series)`: sample the first 10 non-missing values and
test each against the three patterns. -/
def looksLikeDate (col : List (Option String)) : Bool :=
  ((col.filterMap id).take 10).any dateShaped

/-- The kinds a column can have after inference. -/
inductive InferredCol where
  | numeric : List (Option Int) → InferredCol
  | temporal : List (Option Nat) → InferredCol
  | textual : List (Option String) → InferredCol
deriving DecidableEq

/-- The object-column branch of `_infer_types`, for one column: numeric
conversion when over 80 percent of the non-missing values parse, otherwise
the datetime attempt gated by the sampled pattern check (the conversion is
applied unconditionally there, while the report entry is recorded only when
at least one value parsed), otherwise the column stays textual. The Bool
component records whether a `type_conversions` entry was written. -/
def inferColumn (parseNum : String → Option Int) (parseDate : String → Option Nat)
    (col : List (Option String)) : InferredCol × Bool :=
  if 0 < nonNullCountCol col ∧
      8 * nonNullCountCol col < 10 * parsedCountNum parseNum col then
    (InferredCol.numeric (col.map (fun o => o.bind parseNum)), true)
  else if looksLikeDate col then
    (InferredCol.temporal (col.map (fun o => o.bind parseDate)),
      decide (0 < ((col.map (fun o => o.bind parseDate)).filterMap id).length))
  else (InferredCol.textual col, false)

/-- Fixed parsers and columns used by the concrete threshold scenarios. -/
def parseOne : String → Option Int :=
  fun s => if s = ("1") then some 1 else none

def parseNoneInt : String → Option Int := fun _ => none

def parseNoneDate : String → Option Nat := fun _ => none

def col81 : List (Option String) :=
  List.replicate 81 (some ("1")) ++ List.replicate 19 (some ("x"))

def col80 : List (Option String) :=
  List.replicate 80 (some ("1")) ++ List.replicate 20 (some ("x"))

theorem ratio_exceeds_iff (pc nn : Nat) (h : 0 < nn) :
    ((4 : ℚ) / 5 < (pc : ℚ) / (nn : ℚ)) ↔ 8 * nn < 10 * pc := by
  rw [div_lt_div_iff (by norm_num) (by exact_mod_cast h)]
  constructor
  · intro hq
    have hn : 4 * nn < pc * 5 := by exact_mod_cast hq
    omega
  · intro hn
    have hq : (4 * nn : ℕ) < pc * 5 := by omega
    exact_mod_cast hq

/-- Claim C3: a textual column converts to numeric (with unparseable values
becoming missing) exactly when there is at least one non-missing value and
the fraction of non-missing values that parse strictly exceeds 0.8; a
column with 81 parseable values out of 100 converts, one with exactly 80
out of 100 does not. -/
theorem inferColumn_numeric_spec :
    (∀ (parseNum : String → Option Int) (parseDate : String → Option Nat)
      (col : List (Option String)),
      (inferColumn parseNum parseDate col).1 =
          InferredCol.numeric (col.map (fun o => o.bind parseNum)) ↔
        0 < nonNullCountCol col ∧
          (4 : ℚ) / 5 <
            (parsedCountNum parseNum col : ℚ) / (nonNullCountCol col : ℚ)) ∧
    (inferColumn parseOne parseNoneDate col81).1 =
      InferredCol.numeric (col81.map (fun o => o.bind parseOne)) ∧
    (inferColumn parseOne parseNoneDate col80).1 = InferredCol.textual col80 := by
  refine ⟨?_, by decide, by decide⟩
  intro parseNum parseDate col
  by_cases hcond : 0 < nonNullCountCol col ∧
      8 * nonNullCountCol col < 10 * parsedCountNum parseNum col
  · rw [inferColumn, if_pos hcond]
    simp only [true_iff]
    exact ⟨hcond.1, (ratio_exceeds_iff _ _ hcond.1).mpr hcond.2⟩
  · rw [inferColumn, if_neg hcond]
    constructor
    · intro hres
      exfalso
      by_cases hdate : looksLikeDate col = true
      · rw [if_pos hdate] at hres
        exact InferredCol.noConfusion hres
      · rw [if_neg hdate] at hres
        exact InferredCol.noConfusion hres
    · rintro ⟨hpos, hq⟩
      exact absurd ⟨hpos, (ratio_exceeds_iff _ _ hpos).mp hq⟩ hcond

/-- Conclusion of claim C9 (amended) for one column: the sample check looks
at the first 10 non-missing values; when some sampled value is date-shaped
the whole column is temporally parsed with non-parsing values becoming
missing and the report records the conversion exactly when at least one
value parsed; when no sampled value is date-shaped the column stays
textual. -/
def DateSpec (parseNum : String → Option Int) (parseDate : String → Option Nat)
    (col : List (Option String)) : Prop :=
  looksLikeDate col = ((col.filterMap id).take 10).any dateShaped ∧
  (looksLikeDate col = true →
    inferColumn parseNum parseDate col =
      (InferredCol.temporal (col.map (fun o => o.bind parseDate)),
        decide (0 < ((col.map (fun o => o.bind parseDate)).filterMap id).length))) ∧
  (looksLikeDate col = false →
    inferColumn parseNum parseDate col = (InferredCol.textual col, false))

/-- Claim C9 (amended): for a textual column that misses the numeric
threshold, the datetime attempt is gated by the 10-value sample pattern
check; when gated in, the temporal parse is applied to the whole column
(even when nothing parses) and the conversion is recorded exactly when at
least one value parses; when gated out the column remains textual. -/
theorem inferColumn_date_spec (parseNum : String → Option Int)
    (parseDate : String → Option Nat) (col : List (Option String))
    (hnum : ¬ (0 < nonNullCountCol col ∧
      8 * nonNullCountCol col < 10 * parsedCountNum parseNum col)) :
    DateSpec parseNum parseDate col := by
  refine ⟨rfl, ?_, ?_⟩
  · intro hdate
    rw [inferColumn, if_neg hnum, if_pos hdate]
  · intro hdate
    rw [inferColumn, if_neg hnum, if_neg (by simp [hdate])]

/-- Witness for C9: a singleton column holding a well-formed date string
that the failing parser still turns into a missing value. -/
theorem inferColumn_date_spec_witness :
    (¬ (0 < nonNullCountCol [some ("2024-01-15")] ∧
      8 * nonNullCountCol [some ("2024-01-15")] <
        10 * parsedCountNum parseNoneInt [some ("2024-01-15")])) ∧
    DateSpec parseNoneInt parseNoneDate [some ("2024-01-15")] :=
  ⟨by decide, inferColumn_date_spec parseNoneInt parseNoneDate
    [some ("2024-01-15")] (by decide)⟩

/-- Counterexample for C9 as frozen: on the column holding only the
date-shaped but unparseable string 9999-99-98, zero values parse, yet the
column is converted to an all-missing temporal column instead of remaining
textual, and no conversion is recorded. -/
theorem inferColumn_date_counterexample :
    inferColumn parseNoneInt parseNoneDate [some ("9999-99-98")] =
      (InferredCol.temporal [none], false) ∧
    (([some ("9999-99-98")].map (fun o => o.bind parseNoneDate)).filterMap
      id).length = 0 ∧
    (inferColumn parseNoneInt parseNoneDate [some ("9999-99-98")]).1 ≠
      InferredCol.textual [some ("9999-99-98")] := by
  refine ⟨by decide, by decide, by decide⟩
